import Mathlib

/-!
Verification of the streaming log-sanitization utility in
src/scripts/hash-session-logs.cjs.

The development shallowly embeds the script:

* `hashData` — the SHA-256 hex digest of a string (the script calls
  createHash("sha256").update(data).digest("hex") from the node crypto
  library; the compression function is implemented here in full,
  following FIPS 180-4, and validated against the standard test vectors).
* `Json`, `processObject` — the recursive structural rewriter.
* `jsonParse`, `jsonStringify` — models of the JSON.parse / JSON.stringify
  builtins used by the stream driver (full grammar; numbers are kept as
  their parsed components, so re-rendering echoes the source digits rather
  than re-formatting an IEEE double).
* `splitLines`, `runDriver`, `processJsonlFile` — the line-oriented stream
  driver and its returned summary.
-/

/-! ## SHA-256, following FIPS 180-4, over byte lists (all words are Nat mod 2^32) -/

def M32 : Nat := 4294967296

def rotr32 (n x : Nat) : Nat := (x / 2 ^ n + x % 2 ^ n * 2 ^ (32 - n)) % M32

def shaCh (x y z : Nat) : Nat := Nat.xor (Nat.land x y) (Nat.land (Nat.xor x 4294967295) z)

def shaMaj (x y z : Nat) : Nat := Nat.xor (Nat.xor (Nat.land x y) (Nat.land x z)) (Nat.land y z)

def bigSigma0 (x : Nat) : Nat := Nat.xor (Nat.xor (rotr32 2 x) (rotr32 13 x)) (rotr32 22 x)

def bigSigma1 (x : Nat) : Nat := Nat.xor (Nat.xor (rotr32 6 x) (rotr32 11 x)) (rotr32 25 x)

def smallSigma0 (x : Nat) : Nat := Nat.xor (Nat.xor (rotr32 7 x) (rotr32 18 x)) (x / 2 ^ 3)

def smallSigma1 (x : Nat) : Nat := Nat.xor (Nat.xor (rotr32 17 x) (rotr32 19 x)) (x / 2 ^ 10)

/-- Round constants of SHA-256. -/
def shaK : List Nat :=
  [1116352408, 1899447441, 3049323471, 3921009573,
   961987163, 1508970993, 2453635748, 2870763221,
   3624381080, 310598401, 607225278, 1426881987,
   1925078388, 2162078206, 2614888103, 3248222580,
   3835390401, 4022224774, 264347078, 604807628,
   770255983, 1249150122, 1555081692, 1996064986,
   2554220882, 2821834349, 2952996808, 3210313671,
   3336571891, 3584528711, 113926993, 338241895,
   666307205, 773529912, 1294757372, 1396182291,
   1695183700, 1986661051, 2177026350, 2456956037,
   2730485921, 2820302411, 3259730800, 3345764771,
   3516065817, 3600352804, 4094571909, 275423344,
   430227734, 506948616, 659060556, 883997877,
   958139571, 1322822218, 1537002063, 1747873779,
   1955562222, 2024104815, 2227730452, 2361852424,
   2428436474, 2756734187, 3204031479, 3329325298]

/-- Working state of the compression function: the eight 32-bit words. -/
structure ShaState where
  a : Nat
  b : Nat
  c : Nat
  d : Nat
  e : Nat
  f : Nat
  g : Nat
  h : Nat

def shaInit : ShaState :=
  ⟨1779033703, 3144134277, 1013904242, 2773480762,
   1359893119, 2600822924, 528734635, 1541459225⟩

def shaRound (st : ShaState) (kw : Nat × Nat) : ShaState :=
  let t1 := (st.h + bigSigma1 st.e + shaCh st.e st.f st.g + kw.1 + kw.2) % M32
  let t2 := (bigSigma0 st.a + shaMaj st.a st.b st.c) % M32
  ⟨(t1 + t2) % M32, st.a, st.b, st.c, (st.d + t1) % M32, st.e, st.f, st.g⟩

def be32 (a b c d : Nat) : Nat := ((a * 256 + b) * 256 + c) * 256 + d

/-- Pack a 64-byte block into its sixteen big-endian 32-bit words. -/
def words16 : List Nat → List Nat
  | a :: b :: c :: d :: rest => be32 a b c d :: words16 rest
  | _ => []

def wNext (acc : List Nat) : Nat :=
  let n := acc.length
  (smallSigma1 (acc.getD (n - 2) 0) + acc.getD (n - 7) 0 +
   smallSigma0 (acc.getD (n - 15) 0) + acc.getD (n - 16) 0) % M32

/-- Extend the sixteen message-schedule words by the given number of extra words. -/
def extendW : Nat → List Nat → List Nat
  | 0, acc => acc
  | k + 1, acc => extendW k (acc ++ [wNext acc])

def addStates (x y : ShaState) : ShaState :=
  ⟨(x.a + y.a) % M32, (x.b + y.b) % M32, (x.c + y.c) % M32, (x.d + y.d) % M32,
   (x.e + y.e) % M32, (x.f + y.f) % M32, (x.g + y.g) % M32, (x.h + y.h) % M32⟩

def shaCompress (st : ShaState) (block : List Nat) : ShaState :=
  let w := extendW 48 (words16 block)
  addStates st ((shaK.zip w).foldl shaRound st)

/-- Fold the compression function over the given number of 64-byte blocks. -/
def shaBlocks : Nat → List Nat → ShaState → ShaState
  | 0, _, st => st
  | n + 1, bs, st => shaBlocks n (bs.drop 64) (shaCompress st (bs.take 64))

def lenBytes64 (bits : Nat) : List Nat :=
  [bits / 2 ^ 56 % 256, bits / 2 ^ 48 % 256, bits / 2 ^ 40 % 256, bits / 2 ^ 32 % 256,
   bits / 2 ^ 24 % 256, bits / 2 ^ 16 % 256, bits / 2 ^ 8 % 256, bits % 256]

/-- Append the 0x80 marker byte, the zero padding, and the 64-bit message length. -/
def shaPad (msg : List Nat) : List Nat :=
  msg ++ [128] ++ List.replicate ((119 - msg.length % 64) % 64) 0 ++
    lenBytes64 (8 * msg.length % 2 ^ 64)

def wordBytes (w : Nat) : List Nat := [w / 2 ^ 24 % 256, w / 2 ^ 16 % 256, w / 2 ^ 8 % 256, w % 256]

def shaDigestBytes (st : ShaState) : List Nat :=
  ([st.a, st.b, st.c, st.d, st.e, st.f, st.g, st.h].map wordBytes).flatten

/-- SHA-256 digest (32 bytes) of a byte list. -/
def sha256 (msg : List Nat) : List Nat :=
  let padded := shaPad msg
  shaDigestBytes (shaBlocks (padded.length / 64) padded shaInit)

/-- Hex digit characters: 0-9 then lowercase a-f, exactly as digest("hex") renders. -/
def hexDigitChar (n : Nat) : Char := Char.ofNat (if n < 10 then 48 + n else 87 + n)

def byteHex (b : Nat) : List Char := [hexDigitChar (b / 16), hexDigitChar (b % 16)]

def bytesHex (bs : List Nat) : String := String.mk ((bs.map byteHex).flatten)

def sha256Hex (msg : List Nat) : String := bytesHex (sha256 msg)

/-- UTF-8 encoding of a unicode scalar value, as node uses for hashing and byte sizes. -/
def utf8Encode (c : Char) : List Nat :=
  let n := c.toNat
  if n < 128 then [n]
  else if n < 2048 then [192 + n / 64, 128 + n % 64]
  else if n < 65536 then [224 + n / 4096, 128 + n / 64 % 64, 128 + n % 64]
  else [240 + n / 262144, 128 + n / 4096 % 64, 128 + n / 64 % 64, 128 + n % 64]

/-- UTF-8 bytes of a string. -/
def strBytes (s : String) : List Nat := (s.data.map utf8Encode).flatten

/-- Embedding of hashData (src/scripts/hash-session-logs.cjs, lines 17-19):
crypto.createHash("sha256").update(data).digest("hex"), the SHA-256 digest of
the UTF-8 bytes of the literal string, rendered as lowercase hex. -/
def hashData (data : String) : String := sha256Hex (strBytes data)

/-- UTF-8 byte length of a string, as fs.statSync reports for a UTF-8 text file. -/
def utf8Len (s : String) : Nat := (strBytes s).length

set_option maxRecDepth 40000

def isLowerHexDigit (c : Char) : Bool :=
  (48 ≤ c.toNat && c.toNat ≤ 57) || (97 ≤ c.toNat && c.toNat ≤ 102)

/-! ## The JSON data model

JSON values as produced by JSON.parse. Arrays and objects use the mutual list
types `JArr` and `JObj` so that all recursion over the tree is structural.
Numbers keep their parsed components (sign, integer digits, fraction digits,
exponent), so re-rendering echoes the source text of the number; this models
JSON.stringify faithfully for numbers in canonical form (re-formatting of an
IEEE double is out of scope). Object members are kept in insertion order;
JSON.parse never produces duplicate keys (a later duplicate overwrites the
value at the first position, see `jAssign`). -/

mutual
inductive Json where
  | null
  | bool (b : Bool)
  | num (neg : Bool) (ip : List Nat) (fp : List Nat) (es : Option (Bool × List Nat))
  | str (s : String)
  | arr (elems : JArr)
  | obj (members : JObj)
inductive JArr where
  | nil
  | cons (hd : Json) (tl : JArr)
inductive JObj where
  | nil
  | cons (key : String) (val : Json) (tl : JObj)
end

/-- Property access obj[k] on a parsed object (members have distinct keys, so
taking the first match is exact). -/
def jLookup (k : String) : JObj → Option Json
  | .nil => none
  | .cons k2 v rest => if k2 = k then some v else jLookup k rest

def JObj.keys : JObj → List String
  | .nil => []
  | .cons k _ rest => k :: JObj.keys rest

def JArr.length : JArr → Nat
  | .nil => 0
  | .cons _ rest => rest.length + 1

def JArr.get? : JArr → Nat → Option Json
  | .nil, _ => none
  | .cons j _, 0 => some j
  | .cons _ rest, n + 1 => rest.get? n

/-- Embedding of the guard on line 31 of the script:
obj.type === "base64" AND typeof obj.data === "string" AND obj.data.length > 100. -/
def isMarker (m : JObj) : Bool :=
  (match jLookup "type" m with
   | some (Json.str t) => decide (t = "base64")
   | _ => false)
  &&
  (match jLookup "data" m with
   | some (Json.str d) => decide (100 < d.length)
   | _ => false)

mutual
/-- Embedding of processObject (src/scripts/hash-session-logs.cjs, lines 22-43).
The script first overwrites obj.data with hashData(obj.data) when the guard
holds, then recurses into every property value. Recursing into the replacement
value is the identity (it is a string), so the walk below performs the
substitution in one pass: the replacement digest, when the guard holds, is
passed to `processMembers`, which installs it at the "data" property and walks
every other property value. The script mutates in place and JSON.parse yields
distinct keys, so the single "data" property is the first (and only) one. -/
def processObject : Json → Json
  | Json.null => Json.null
  | Json.bool b => Json.bool b
  | Json.num neg ip fp es => Json.num neg ip fp es
  | Json.str s => Json.str s
  | Json.arr elems => Json.arr (processArr elems)
  | Json.obj members =>
      Json.obj (processMembers
        (if isMarker members then
          match jLookup "data" members with
          | some (Json.str d) => some (hashData d)
          | _ => none
         else none) members)
def processArr : JArr → JArr
  | .nil => .nil
  | .cons j rest => .cons (processObject j) (processArr rest)
def processMembers : Option String → JObj → JObj
  | some h, .cons k v rest =>
      if k = "data" then .cons k (Json.str h) (processMembers none rest)
      else .cons k (processObject v) (processMembers (some h) rest)
  | none, .cons k v rest => .cons k (processObject v) (processMembers none rest)
  | _, .nil => .nil
end

/-- The Binary Payload Marker predicate, transcribed from the words of the
specification: the object has a field "type" with string value equal to the
literal "base64", and a field "data" whose value is a string, and that string
has length exceeding 100 characters. -/
def specMarker (m : JObj) : Prop :=
  jLookup "type" m = some (Json.str "base64") ∧
    ∃ d, jLookup "data" m = some (Json.str d) ∧ 100 < d.length

/-- Constructor tag of a value; the walk never changes it. -/
def jKind : Json → Nat
  | .null => 0
  | .bool _ => 1
  | .num .. => 2
  | .str _ => 3
  | .arr _ => 4
  | .obj _ => 5

/-! ## The skeleton of a value: everything except the contents of strings -/

mutual
/-- Erase every string content, keeping nulls, booleans, numbers, array shapes,
object keys and member order. The walk preserves this skeleton exactly. -/
def skelJ : Json → Json
  | .null => .null
  | .bool b => .bool b
  | .num neg ip fp es => .num neg ip fp es
  | .str _ => .str ""
  | .arr xs => .arr (skelArr xs)
  | .obj ms => .obj (skelObj ms)
def skelArr : JArr → JArr
  | .nil => .nil
  | .cons j rest => .cons (skelJ j) (skelArr rest)
def skelObj : JObj → JObj
  | .nil => .nil
  | .cons k v rest => .cons k (skelJ v) (skelObj rest)
end

/-! ## Model of the JSON.stringify builtin (compact form, insertion order) -/

def digitChar (d : Nat) : Char := Char.ofNat (48 + d % 10)

def lbraceChar : Char := Char.ofNat 123

def rbraceChar : Char := Char.ofNat 125

/-- String escaping as JSON.stringify performs it: quote, backslash, the short
control escapes, and \u00xx for the remaining control characters. -/
def escChar (c : Char) : List Char :=
  if c = '"' then ['\\', '"']
  else if c = '\\' then ['\\', '\\']
  else if c = Char.ofNat 8 then ['\\', 'b']
  else if c = '\t' then ['\\', 't']
  else if c = '\n' then ['\\', 'n']
  else if c = Char.ofNat 12 then ['\\', 'f']
  else if c = '\r' then ['\\', 'r']
  else if c.toNat < 32 then
    ['\\', 'u', '0', '0', hexDigitChar (c.toNat / 16), hexDigitChar (c.toNat % 16)]
  else [c]

def quoteStr (s : String) : String := String.mk ('"' :: (s.data.map escChar).flatten ++ ['"'])

/-- Rendering of a parsed number from its components; this echoes the digits of
the source text (canonical numbers round-trip; re-formatting of an IEEE double
for non-canonical sources such as 1e3 is not modelled). -/
def numRender (neg : Bool) (ip fp : List Nat) (es : Option (Bool × List Nat)) : String :=
  String.mk ((if neg then ['-'] else []) ++ ip.map digitChar ++
    (if fp.isEmpty then [] else '.' :: fp.map digitChar) ++
    (match es with
     | none => []
     | some (eneg, eds) => 'e' :: ((if eneg then ['-'] else []) ++ eds.map digitChar)))

mutual
/-- Model of the JSON.stringify builtin applied to a parsed value: compact
separators, members in insertion order, escaped strings. -/
def jsonStringify : Json → String
  | Json.null => "null"
  | Json.bool true => "true"
  | Json.bool false => "false"
  | Json.num neg ip fp es => numRender neg ip fp es
  | Json.str s => quoteStr s
  | Json.arr xs => "[" ++ stringifyArr xs ++ "]"
  | Json.obj ms => String.mk [lbraceChar] ++ stringifyObj ms ++ String.mk [rbraceChar]
def stringifyArr : JArr → String
  | .nil => ""
  | .cons j .nil => jsonStringify j
  | .cons j (JArr.cons j2 rest) => jsonStringify j ++ "," ++ stringifyArr (JArr.cons j2 rest)
def stringifyObj : JObj → String
  | .nil => ""
  | .cons k v .nil => quoteStr k ++ ":" ++ jsonStringify v
  | .cons k v (JObj.cons k2 v2 rest) =>
      quoteStr k ++ ":" ++ jsonStringify v ++ "," ++ stringifyObj (JObj.cons k2 v2 rest)
end

/-! ## Model of the JSON.parse builtin

A fuel-indexed recursive-descent parser for the JSON grammar. Restrictions of
the model: a \uXXXX escape must denote a unicode scalar value (surrogate halves
and surrogate pairs are rejected), and numbers are stored as their components
rather than converted to an IEEE double. Duplicate keys follow the JS object
semantics: position of the first occurrence, value of the last (`jAssign`). -/

def isWsChar (c : Char) : Bool := c = ' ' || c = '\t' || c = '\n' || c = '\r'

def skipWs : List Char → List Char
  | [] => []
  | c :: cs => if isWsChar c then skipWs cs else c :: cs

def isDigitChar (c : Char) : Bool := 48 ≤ c.toNat && c.toNat ≤ 57

def takeDigits : List Char → List Nat × List Char
  | c :: cs =>
      if isDigitChar c then
        let (ds, r) := takeDigits cs
        ((c.toNat - 48) :: ds, r)
      else ([], c :: cs)
  | [] => ([], [])

def hexVal (c : Char) : Option Nat :=
  if 48 ≤ c.toNat && c.toNat ≤ 57 then some (c.toNat - 48)
  else if 97 ≤ c.toNat && c.toNat ≤ 102 then some (c.toNat - 87)
  else if 65 ≤ c.toNat && c.toNat ≤ 70 then some (c.toNat - 55)
  else none

def unescapeChar : Char → Option Char
  | '"' => some '"'
  | '\\' => some '\\'
  | '/' => some '/'
  | 'b' => some (Char.ofNat 8)
  | 'f' => some (Char.ofNat 12)
  | 'n' => some '\n'
  | 'r' => some '\r'
  | 't' => some '\t'
  | _ => none

def parseStringBody (acc : List Char) : List Char → Option (String × List Char)
  | '"' :: rest => some (String.mk acc.reverse, rest)
  | '\\' :: 'u' :: a :: b :: c :: d :: rest =>
      (match hexVal a, hexVal b, hexVal c, hexVal d with
       | some va, some vb, some vc, some vd =>
           let n := ((va * 16 + vb) * 16 + vc) * 16 + vd
           if n < 55296 || 57343 < n then parseStringBody (Char.ofNat n :: acc) rest else none
       | _, _, _, _ => none)
  | '\\' :: e :: rest =>
      (match unescapeChar e with
       | some ch => parseStringBody (ch :: acc) rest
       | none => none)
  | c :: rest => if c.toNat < 32 then none else parseStringBody (c :: acc) rest
  | [] => none

def parseIntPart : List Char → Option (List Nat × List Char)
  | c :: cs =>
      if c.toNat = 48 then some ([0], cs)
      else if isDigitChar c then
        let (ds, r) := takeDigits cs
        some ((c.toNat - 48) :: ds, r)
      else none
  | [] => none

def parseExpPart (neg : Bool) (ip fp : List Nat) :
    List Char → Option ((Bool × List Nat × List Nat × Option (Bool × List Nat)) × List Char)
  | 'e' :: r =>
      (let (eneg, r1) := match r with
        | '+' :: r2 => (false, r2)
        | '-' :: r2 => (true, r2)
        | _ => (false, r)
       let (eds, r2) := takeDigits r1
       if eds.isEmpty then none else some ((neg, ip, fp, some (eneg, eds)), r2))
  | 'E' :: r =>
      (let (eneg, r1) := match r with
        | '+' :: r2 => (false, r2)
        | '-' :: r2 => (true, r2)
        | _ => (false, r)
       let (eds, r2) := takeDigits r1
       if eds.isEmpty then none else some ((neg, ip, fp, some (eneg, eds)), r2))
  | r => some ((neg, ip, fp, none), r)

def parseNumParts (cs : List Char) :
    Option ((Bool × List Nat × List Nat × Option (Bool × List Nat)) × List Char) :=
  let (neg, cs1) := match cs with
    | '-' :: r => (true, r)
    | _ => (false, cs)
  match parseIntPart cs1 with
  | none => none
  | some (ip, cs2) =>
      match cs2 with
      | '.' :: r =>
          let (fds, cs3) := takeDigits r
          if fds.isEmpty then none else parseExpPart neg ip fds cs3
      | _ => parseExpPart neg ip [] cs2

/-- JS object assignment obj[k] = v: overwrite at the first occurrence of the
key, otherwise append. -/
def jAssign : JObj → String → Json → JObj
  | .nil, k, v => .cons k v .nil
  | .cons k2 v2 tl, k, v => if k2 = k then .cons k2 v tl else .cons k2 v2 (jAssign tl k v)

def assembleFrom : JObj → JObj → JObj
  | acc, .nil => acc
  | acc, .cons k v tl => assembleFrom (jAssign acc k v) tl

def assembleObj (ms : JObj) : JObj := assembleFrom .nil ms

mutual
def parseVal : Nat → List Char → Option (Json × List Char)
  | 0, _ => none
  | fuel + 1, cs =>
    match skipWs cs with
    | 'n' :: 'u' :: 'l' :: 'l' :: r => some (Json.null, r)
    | 't' :: 'r' :: 'u' :: 'e' :: r => some (Json.bool true, r)
    | 'f' :: 'a' :: 'l' :: 's' :: 'e' :: r => some (Json.bool false, r)
    | '"' :: r =>
        (match parseStringBody [] r with
         | some (s, r2) => some (Json.str s, r2)
         | none => none)
    | '[' :: r =>
        (match skipWs r with
         | ']' :: r2 => some (Json.arr JArr.nil, r2)
         | r2 =>
            match parseElems fuel r2 with
            | some (xs, r3) => some (Json.arr xs, r3)
            | none => none)
    | c :: r =>
        if c = lbraceChar then
          match skipWs r with
          | d :: r2 =>
              if d = rbraceChar then some (Json.obj JObj.nil, r2)
              else
                match parseMembers fuel (d :: r2) with
                | some (ms, r3) => some (Json.obj (assembleObj ms), r3)
                | none => none
          | [] => none
        else if c = '-' || isDigitChar c then
          match parseNumParts (c :: r) with
          | some ((neg, ip, fp, es), r2) => some (Json.num neg ip fp es, r2)
          | none => none
        else none
    | [] => none
def parseElems : Nat → List Char → Option (JArr × List Char)
  | 0, _ => none
  | fuel + 1, cs =>
    match parseVal fuel cs with
    | none => none
    | some (v, r) =>
      match skipWs r with
      | ',' :: r2 =>
          (match parseElems fuel r2 with
           | some (xs, r3) => some (JArr.cons v xs, r3)
           | none => none)
      | ']' :: r2 => some (JArr.cons v JArr.nil, r2)
      | _ => none
def parseMembers : Nat → List Char → Option (JObj × List Char)
  | 0, _ => none
  | fuel + 1, cs =>
    match skipWs cs with
    | '"' :: r =>
      (match parseStringBody [] r with
       | none => none
       | some (key, r1) =>
         match skipWs r1 with
         | ':' :: r2 =>
           (match parseVal fuel r2 with
            | none => none
            | some (v, r3) =>
              match skipWs r3 with
              | ',' :: r4 =>
                  (match parseMembers fuel r4 with
                   | some (ms, r5) => some (JObj.cons key v ms, r5)
                   | none => none)
              | d :: _r4 => if d = rbraceChar then some (JObj.cons key v JObj.nil, _r4) else none
              | [] => none)
         | _ => none)
    | _ => none
end

/-- Model of the JSON.parse builtin: parse one complete value, allowing leading
and trailing whitespace, rejecting trailing content. -/
def jsonParse (s : String) : Option Json :=
  match parseVal (2 * s.data.length + 2) s.data with
  | some (j, rest) => if (skipWs rest).isEmpty then some j else none
  | none => none

/-! ## Line splitting: the readline interface with crlfDelay Infinity -/

def dropTrailingCR (l : List Char) : List Char :=
  if l.getLast? = some '\r' then l.dropLast else l

def splitNL : List Char → List (List Char)
  | [] => [[]]
  | c :: rest =>
      if c = '\n' then [] :: splitNL rest
      else
        match splitNL rest with
        | [] => [[c]]
        | l :: ls => (c :: l) :: ls

/-- Model of the readline line stream over the input text: lines are separated
by newlines (a CR immediately before a LF is consumed with it), and a trailing
newline does not produce a final empty line. -/
def splitLines (s : String) : List String :=
  let ps := splitNL s.data
  (if ps.getLast? = some [] then ps.dropLast else ps).map (fun l => String.mk (dropTrailingCR l))

/-! ## The stream driver -/

/-- The summary object resolved by processJsonlFile (lines 121-127 of the
script): linesProcessed, errors, inputSize, outputSize, outputPath. -/
structure Summary where
  linesProcessed : Nat
  errors : Nat
  inputSize : Nat
  outputSize : Nat
  outputPath : String

/-- The counters and the sequence of sink writes accumulated by the line
event handler. -/
structure RunTotals where
  out : List String
  lineCount : Nat
  processedCount : Nat
  errorCount : Nat

/-- The single sink write produced for one input line: the rewritten record
plus a newline on parse success, the original line plus a newline on failure. -/
def lineOut (line : String) : String :=
  match jsonParse line with
  | some j => jsonStringify (processObject j) ++ "\n"
  | none => line ++ "\n"

/-- Embedding of the rl.on("line") handler (lines 78-102 of the script): count
the line; on parse success rewrite, serialize, write, and count it processed;
on parse failure count the error and write the original line. -/
def lineStep (st : RunTotals) (line : String) : RunTotals :=
  match jsonParse line with
  | some j =>
      ⟨st.out ++ [jsonStringify (processObject j) ++ "\n"],
       st.lineCount + 1, st.processedCount + 1, st.errorCount⟩
  | none =>
      ⟨st.out ++ [line ++ "\n"], st.lineCount + 1, st.processedCount, st.errorCount + 1⟩

def runDriver (lines : List String) : RunTotals := lines.foldl lineStep ⟨[], 0, 0, 0⟩

/-- Concatenation of all sink writes: the content of the output file. -/
def concatAll (l : List String) : String := String.mk ((l.map String.data).flatten)

/-- Model of path.basename: the component after the last slash. -/
def basename (p : String) : String :=
  String.mk (p.data.foldl (fun acc c => if c = '/' then [] else acc ++ [c]) [])

def replaceFirstAux (pat repl : List Char) : List Char → List Char
  | [] => []
  | c :: rest =>
      if pat.isPrefixOf (c :: rest) then repl ++ (c :: rest).drop pat.length
      else c :: replaceFirstAux pat repl rest

/-- Model of the JS String.replace with a plain-string pattern: replace the
first occurrence only (the replacement text here contains no dollar patterns). -/
def replaceFirst (s pat repl : String) : String :=
  String.mk (replaceFirstAux pat.data repl.data s.data)

/-- Model of path.join for a directory and a file name. -/
def pathJoin (dir name : String) : String := dir ++ "/" ++ name

/-- Embedding of line 55 of the script:
inputFilename.replace(".jsonl", ".hashed.jsonl"). -/
def outputFilename (name : String) : String := replaceFirst name ".jsonl" ".hashed.jsonl"

/-- Embedding of processJsonlFile (lines 45-140 of the script), as the pure
transform from the input text to the resolved summary and the complete output
content. The input-existence check, directory creation and stream plumbing are
I/O glue; byte sizes are the UTF-8 byte lengths fs.statSync reports once all
writes have reached the file (the flush race at the close event is modelled
separately by `AsyncSink` below). -/
def processJsonlFile (inputText inputPath outputDir : String) : Summary × String :=
  let outputPath := pathJoin outputDir (outputFilename (basename inputPath))
  let st := runDriver (splitLines inputText)
  let outText := concatAll st.out
  (⟨st.processedCount, st.errorCount, utf8Len inputText, utf8Len outText, outputPath⟩, outText)

/-! ## The asynchronous write sink

Modelled from the spec: node fs.createWriteStream buffers each write and
performs the file writes asynchronously on later event-loop turns;
outputStream.end() requests completion but does not synchronously flush, and
fs.statSync reports the bytes on disk at the moment of the call. The script
calls statSync immediately after end() inside the close handler, without
waiting for the finish event, so the measurement sees only the writes the
event loop happened to complete. -/

structure AsyncSink where
  flushed : List String
  pending : List String

def sinkWrite (sk : AsyncSink) (s : String) : AsyncSink := ⟨sk.flushed, sk.pending ++ [s]⟩

/-- Completion of the given number of buffered writes by the event loop. -/
def sinkFlushN : Nat → AsyncSink → AsyncSink
  | 0, sk => sk
  | n + 1, sk =>
      match sk.pending with
      | [] => sk
      | p :: rest => sinkFlushN n ⟨sk.flushed ++ [p], rest⟩

/-- The byte count fs.statSync reports: only bytes already written to disk. -/
def sinkDiskBytes (sk : AsyncSink) : Nat := (sk.flushed.map utf8Len).sum

def writeAll (pieces : List String) : AsyncSink := pieces.foldl sinkWrite ⟨[], []⟩

/-! ## Base64 decoding

Modelled from the spec: standard RFC 4648 base64 decoding of a payload text.
It is used only to state that hashData digests the raw base64 text itself and
not the binary the text denotes. -/

def b64Val (c : Char) : Option Nat :=
  if 65 ≤ c.toNat && c.toNat ≤ 90 then some (c.toNat - 65)
  else if 97 ≤ c.toNat && c.toNat ≤ 122 then some (c.toNat - 71)
  else if 48 ≤ c.toNat && c.toNat ≤ 57 then some (c.toNat + 4)
  else if c = '+' then some 62
  else if c = '/' then some 63
  else none

def b64Group : List Char → Option (List Nat)
  | [a, b, '=', '='] =>
      (match b64Val a, b64Val b with
       | some va, some vb => some [va * 4 + vb / 16]
       | _, _ => none)
  | [a, b, c, '='] =>
      (match b64Val a, b64Val b, b64Val c with
       | some va, some vb, some vc => some [va * 4 + vb / 16, vb % 16 * 16 + vc / 4]
       | _, _, _ => none)
  | a :: b :: c :: d :: rest =>
      (match b64Val a, b64Val b, b64Val c, b64Val d, b64Group rest with
       | some va, some vb, some vc, some vd, some bs =>
           some ([va * 4 + vb / 16, vb % 16 * 16 + vc / 4, vc % 4 * 64 + vd] ++ bs)
       | _, _, _, _, _ => none)
  | [] => some []
  | _ => none

def b64Decode (s : String) : Option (List Nat) := b64Group s.data

/-! ## Driver bookkeeping lemmas -/

/-- The record content written for one line, without the appended newline. -/
def lineContent (line : String) : String :=
  match jsonParse line with
  | some j => jsonStringify (processObject j)
  | none => line

/-- Property access j[k] when j is an object, undefined otherwise. -/
def objLookup (k : String) (j : Json) : Option Json :=
  match j with
  | Json.obj m => jLookup k m
  | _ => none

/-- The key list of an object value. -/
def objKeys (j : Json) : List String :=
  match j with
  | Json.obj m => m.keys
  | _ => []

/-- A string of n copies of the letter x, for the size-floor boundary cases. -/
def xStr (n : Nat) : String := String.mk (List.replicate n 'x')

/-- A two-field object node carrying the given type tag and data payload. -/
def b64Node (t d : String) : JObj :=
  .cons "type" (Json.str t) (.cons "data" (Json.str d) .nil)

/-- Validation of the SHA-256 embedding against the FIPS 180-4 test vector for the
empty message. -/
theorem sha256_vector_empty :
    hashData "" = "e3b0c44298fc1c149afbf4c8996fb92427ae41e4649b934ca495991b7852b855" := by
  decide

/-- Validation of the SHA-256 embedding against the FIPS 180-4 test vector for "abc". -/
theorem sha256_vector_abc :
    hashData "abc" = "ba7816bf8f01cfea414140de5dae2223b00361a396177a9cb410ff61f20015ad" := by
  decide

/-! ## Shape of the digest: 64 lowercase hex characters, for every input -/

theorem shaDigestBytes_length (st : ShaState) : (shaDigestBytes st).length = 32 := rfl

theorem sha256_length (msg : List Nat) : (sha256 msg).length = 32 := rfl

theorem bytesHex_length : ∀ bs : List Nat, ((bs.map byteHex).flatten).length = 2 * bs.length
  | [] => rfl
  | b :: bs => by
      simp only [List.map_cons, List.flatten_cons, List.length_append, bytesHex_length bs,
        byteHex, List.length_cons, List.length_nil]
      ring

/-- The digest string always has exactly 64 characters. -/
theorem hashData_length (s : String) : (hashData s).length = 64 := by
  show ((((sha256 (strBytes s)).map byteHex).flatten)).length = 64
  rw [bytesHex_length, sha256_length]

theorem hexDigitChar_lower {n : Nat} (h : n < 16) : isLowerHexDigit (hexDigitChar n) = true := by
  interval_cases n <;> decide

theorem byteHex_lower {b : Nat} (hb : b < 256) : ∀ c ∈ byteHex b, isLowerHexDigit c = true := by
  intro c hc
  simp only [byteHex, List.mem_cons, List.not_mem_nil, or_false] at hc
  rcases hc with rfl | rfl
  · exact hexDigitChar_lower (Nat.div_lt_of_lt_mul (by omega))
  · exact hexDigitChar_lower (Nat.mod_lt _ (by omega))

theorem wordBytes_lt (w : Nat) : ∀ b ∈ wordBytes w, b < 256 := by
  intro b hb
  simp only [wordBytes, List.mem_cons, List.not_mem_nil, or_false] at hb
  rcases hb with rfl | rfl | rfl | rfl <;> exact Nat.mod_lt _ (by omega)

theorem shaDigestBytes_lt (st : ShaState) : ∀ b ∈ shaDigestBytes st, b < 256 := by
  intro b hb
  rw [shaDigestBytes, List.mem_flatten] at hb
  obtain ⟨l, hl, hbl⟩ := hb
  rw [List.mem_map] at hl
  obtain ⟨w, _, rfl⟩ := hl
  exact wordBytes_lt w b hbl

/-- Every character of the digest is a lowercase hex digit. -/
theorem hashData_lower (s : String) : ∀ c ∈ (hashData s).data, isLowerHexDigit c = true := by
  intro c hc
  have hc2 : c ∈ ((sha256 (strBytes s)).map byteHex).flatten := hc
  rw [List.mem_flatten] at hc2
  obtain ⟨l, hl, hcl⟩ := hc2
  rw [List.mem_map] at hl
  obtain ⟨b, hb, rfl⟩ := hl
  exact byteHex_lower (shaDigestBytes_lt _ b hb) c hcl

/-- Basic structural lemma: rewriting an array rewrites its elements in order. -/
theorem processArr_get? : ∀ (xs : JArr) (n : Nat),
    (processArr xs).get? n = (xs.get? n).map processObject
  | .nil, _ => rfl
  | .cons _ _, 0 => rfl
  | .cons _ rest, n + 1 => processArr_get? rest n

theorem processArr_length : ∀ xs : JArr, (processArr xs).length = xs.length
  | .nil => rfl
  | .cons _ rest => by simp only [processArr, JArr.length, processArr_length rest]

theorem processMembers_keys : ∀ (r : Option String) (m : JObj),
    (processMembers r m).keys = m.keys
  | some h, .cons k v rest => by
      by_cases hk : k = "data" <;>
        simp only [processMembers, hk, if_true, if_false, JObj.keys, reduceIte,
          processMembers_keys none rest, processMembers_keys (some h) rest]
  | none, .cons k v rest => by
      simp only [processMembers, JObj.keys, processMembers_keys none rest]
  | some _, .nil => rfl
  | none, .nil => rfl

/-- Looking up any property other than "data" after the walk returns the walked
original value: the in-place replacement touches only "data". -/
theorem jLookup_processMembers : ∀ (r : Option String) (m : JObj) (k : String), k ≠ "data" →
    jLookup k (processMembers r m) = (jLookup k m).map processObject
  | some h, .cons k2 v rest, k, hk => by
      by_cases h2 : k2 = "data"
      · subst h2
        have hne : ¬("data" = k) := fun hh => hk hh.symm
        simp only [processMembers, reduceIte, jLookup, if_neg hne,
          jLookup_processMembers none rest k hk]
      · simp only [processMembers, if_neg h2, jLookup]
        by_cases h3 : k2 = k
        · simp [h3]
        · simp only [if_neg h3, jLookup_processMembers (some h) rest k hk]
  | none, .cons k2 v rest, k, hk => by
      simp only [processMembers, jLookup]
      by_cases h3 : k2 = k
      · simp [h3]
      · simp only [if_neg h3, jLookup_processMembers none rest k hk]
  | some _, .nil, _, _ => rfl
  | none, .nil, _, _ => rfl

/-- When a "data" property exists, the walk with a replacement installs exactly
the replacement string there. -/
theorem jLookup_processMembers_data : ∀ (h : String) (m : JObj),
    (jLookup "data" m).isSome → jLookup "data" (processMembers (some h) m) = some (Json.str h)
  | h, .cons k2 v rest, hs => by
      by_cases h2 : k2 = "data"
      · subst h2
        simp [processMembers, jLookup]
      · simp only [processMembers, if_neg h2, jLookup, if_neg h2]
        simp only [jLookup, if_neg h2] at hs
        exact jLookup_processMembers_data h rest hs

theorem jLookup_processMembers_none : ∀ (m : JObj) (k : String),
    jLookup k (processMembers none m) = (jLookup k m).map processObject
  | .nil, _ => rfl
  | .cons k2 v rest, k => by
      simp only [processMembers, jLookup]
      by_cases h3 : k2 = k
      · simp [h3]
      · simp only [if_neg h3, jLookup_processMembers_none rest k]

theorem isMarker_iff (m : JObj) : isMarker m = true ↔ specMarker m := by
  unfold isMarker specMarker
  cases h1 : jLookup "type" m with
  | none => simp
  | some v =>
    cases h2 : jLookup "data" m with
    | none => cases v <;> simp
    | some w => cases v <;> cases w <;> simp [Bool.and_eq_true, decide_eq_true_iff]

theorem jKind_processObject (j : Json) : jKind (processObject j) = jKind j := by
  cases j <;> rfl

/-- Walking the members without a pending replacement does not change whether
the marker guard holds. -/
theorem isMarker_processMembers_none (m : JObj) :
    isMarker (processMembers none m) = isMarker m := by
  unfold isMarker
  rw [jLookup_processMembers_none m "type", jLookup_processMembers_none m "data"]
  cases h1 : jLookup "type" m with
  | none => rfl
  | some v =>
    cases h2 : jLookup "data" m with
    | none => cases v <;> rfl
    | some w => cases v <;> cases w <;> rfl

/-- After the "data" value is replaced by a string of at most 100 characters,
the marker guard no longer holds. -/
theorem isMarker_processMembers_hash (m : JObj) (h : String)
    (hs : (jLookup "data" m).isSome) (hlen : ¬100 < h.length) :
    isMarker (processMembers (some h) m) = false := by
  unfold isMarker
  rw [jLookup_processMembers_data h m hs]
  simp [hlen]

/-- Evaluation of the walk at an object node on which the guard holds. -/
theorem processObject_obj_marker (m : JObj) (d : String) (hm : isMarker m = true)
    (hdata : jLookup "data" m = some (Json.str d)) :
    processObject (Json.obj m) = Json.obj (processMembers (some (hashData d)) m) := by
  simp only [processObject, hm, hdata, reduceIte]

/-- Evaluation of the walk at an object node on which the guard fails. -/
theorem processObject_obj_nomarker (m : JObj) (hm : isMarker m = false) :
    processObject (Json.obj m) = Json.obj (processMembers none m) := by
  simp only [processObject, hm, Bool.false_eq_true, reduceIte]

mutual
theorem process_idem : ∀ j : Json, processObject (processObject j) = processObject j
  | Json.null => rfl
  | Json.bool _ => rfl
  | Json.num .. => rfl
  | Json.str _ => rfl
  | Json.arr elems => by
      simp only [processObject]
      rw [processArr_idem elems]
  | Json.obj m => by
      by_cases hm : isMarker m = true
      · obtain ⟨htype, d, hdata, hlen⟩ := (isMarker_iff m).mp hm
        rw [processObject_obj_marker m d hm hdata,
          processObject_obj_nomarker _ (isMarker_processMembers_hash m (hashData d)
            (by rw [hdata]; rfl) (by rw [hashData_length]; omega)),
          processMembers_process (some (hashData d)) m]
      · have hm2 : isMarker m = false := by revert hm; cases isMarker m <;> simp
        rw [processObject_obj_nomarker m hm2,
          processObject_obj_nomarker _ (by rw [isMarker_processMembers_none m]; exact hm2),
          processMembers_process none m]
theorem processArr_idem : ∀ xs : JArr, processArr (processArr xs) = processArr xs
  | .nil => rfl
  | .cons j rest => by
      simp only [processArr]
      rw [process_idem j, processArr_idem rest]
theorem processMembers_process : ∀ (r : Option String) (m : JObj),
    processMembers none (processMembers r m) = processMembers r m
  | some h, .cons k v rest => by
      by_cases h2 : k = "data"
      · subst h2
        simp only [processMembers, reduceIte, processObject]
        rw [processMembers_process none rest]
      · simp only [processMembers, if_neg h2]
        rw [process_idem v, processMembers_process (some h) rest]
  | none, .cons k v rest => by
      simp only [processMembers]
      rw [process_idem v, processMembers_process none rest]
  | some _, .nil => rfl
  | none, .nil => rfl
end

mutual
theorem skelJ_processObject : ∀ j : Json, skelJ (processObject j) = skelJ j
  | Json.null => rfl
  | Json.bool _ => rfl
  | Json.num .. => rfl
  | Json.str _ => rfl
  | Json.arr elems => by
      simp only [processObject, skelJ]
      rw [skelArr_processArr elems]
  | Json.obj m => by
      by_cases hm : isMarker m = true
      · obtain ⟨htype, d, hdata, hlen⟩ := (isMarker_iff m).mp hm
        rw [processObject_obj_marker m d hm hdata]
        simp only [skelJ]
        refine congrArg Json.obj (skelObj_processMembers (some (hashData d)) m ?_)
        intro hh hsome v hv
        rw [hdata] at hv
        exact ⟨d, by injection hv with h2; exact h2.symm⟩
      · have hm2 : isMarker m = false := by revert hm; cases isMarker m <;> simp
        rw [processObject_obj_nomarker m hm2]
        simp only [skelJ]
        refine congrArg Json.obj (skelObj_processMembers none m ?_)
        intro hh hsome
        exact absurd hsome (by simp)
theorem skelArr_processArr : ∀ xs : JArr, skelArr (processArr xs) = skelArr xs
  | .nil => rfl
  | .cons j rest => by
      simp only [processArr, skelArr]
      rw [skelJ_processObject j, skelArr_processArr rest]
theorem skelObj_processMembers : ∀ (r : Option String) (m : JObj),
    (∀ hh, r = some hh → ∀ v, jLookup "data" m = some v → ∃ d, v = Json.str d) →
    skelObj (processMembers r m) = skelObj m
  | some h, .cons k v rest, H => by
      by_cases h2 : k = "data"
      · subst h2
        simp only [processMembers, reduceIte, skelObj, skelJ]
        obtain ⟨d, hd⟩ := H h rfl v (by simp [jLookup])
        rw [hd]
        simp only [skelJ]
        rw [skelObj_processMembers none rest (by intro hh hcontra; exact absurd hcontra (by simp))]
      · simp only [processMembers, if_neg h2, skelObj]
        rw [skelJ_processObject v]
        refine congrArg (JObj.cons k (skelJ v))
          (skelObj_processMembers (some h) rest ?_)
        intro hh hsome v2 hv2
        refine H hh hsome v2 ?_
        simp only [jLookup, if_neg h2]
        exact hv2
  | none, .cons k v rest, _ => by
      simp only [processMembers, skelObj]
      rw [skelJ_processObject v,
        skelObj_processMembers none rest (by intro hh hcontra; exact absurd hcontra (by simp))]
  | some _, .nil, _ => rfl
  | none, .nil, _ => rfl
end

theorem lineOut_eq (line : String) : lineOut line = lineContent line ++ "\n" := by
  unfold lineOut lineContent
  cases jsonParse line <;> rfl

theorem foldl_lineStep_out : ∀ (lines : List String) (st : RunTotals),
    (List.foldl lineStep st lines).out = st.out ++ lines.map lineOut
  | [], st => by simp
  | l :: ls, st => by
      rw [List.foldl_cons, foldl_lineStep_out ls (lineStep st l)]
      simp only [lineStep, lineOut, List.map_cons]
      cases h : jsonParse l <;> simp [h]

theorem foldl_lineStep_lineCount : ∀ (lines : List String) (st : RunTotals),
    (List.foldl lineStep st lines).lineCount = st.lineCount + lines.length
  | [], st => by simp
  | l :: ls, st => by
      rw [List.foldl_cons, foldl_lineStep_lineCount ls (lineStep st l)]
      simp only [lineStep, List.length_cons]
      cases h : jsonParse l <;> simp [h] <;> omega

theorem foldl_lineStep_processed : ∀ (lines : List String) (st : RunTotals),
    (List.foldl lineStep st lines).processedCount =
      st.processedCount + lines.countP (fun l => (jsonParse l).isSome)
  | [], st => by simp
  | l :: ls, st => by
      rw [List.foldl_cons, foldl_lineStep_processed ls (lineStep st l)]
      simp only [lineStep, List.countP_cons]
      cases h : jsonParse l <;> simp [h] <;> omega

theorem foldl_lineStep_errors : ∀ (lines : List String) (st : RunTotals),
    (List.foldl lineStep st lines).errorCount =
      st.errorCount + lines.countP (fun l => (jsonParse l).isNone)
  | [], st => by simp
  | l :: ls, st => by
      rw [List.foldl_cons, foldl_lineStep_errors ls (lineStep st l)]
      simp only [lineStep, List.countP_cons]
      cases h : jsonParse l <;> simp [h] <;> omega

theorem runDriver_out (lines : List String) : (runDriver lines).out = lines.map lineOut := by
  unfold runDriver
  rw [foldl_lineStep_out]
  rfl

theorem runDriver_lineCount (lines : List String) : (runDriver lines).lineCount = lines.length := by
  unfold runDriver
  rw [foldl_lineStep_lineCount]
  simp

theorem runDriver_processed (lines : List String) :
    (runDriver lines).processedCount = lines.countP (fun l => (jsonParse l).isSome) := by
  unfold runDriver
  rw [foldl_lineStep_processed]
  simp

theorem runDriver_errors (lines : List String) :
    (runDriver lines).errorCount = lines.countP (fun l => (jsonParse l).isNone) := by
  unfold runDriver
  rw [foldl_lineStep_errors]
  simp

/-! ## No serialized record and no split line contains a newline -/

theorem digitChar_ne_nl (d : Nat) : digitChar d ≠ '\n' := by
  unfold digitChar
  have h : d % 10 < 10 := Nat.mod_lt _ (by omega)
  generalize hgen : d % 10 = r
  rw [hgen] at h
  interval_cases r <;> decide

theorem hexDigitChar_ne_nl {n : Nat} (h : n < 16) : hexDigitChar n ≠ '\n' := by
  interval_cases n <;> decide

theorem digits_no_nl (ds : List Nat) : '\n' ∉ ds.map digitChar := by
  intro h
  rcases List.mem_map.mp h with ⟨d, _, hd⟩
  exact digitChar_ne_nl d hd

theorem escChar_no_nl (c : Char) : '\n' ∉ escChar c := by
  unfold escChar
  split_ifs with h1 h2 h3 h4 h5 h6 h7 h8
  · decide
  · decide
  · decide
  · decide
  · decide
  · decide
  · decide
  · intro hmem
    simp only [List.mem_cons, List.not_mem_nil, or_false] at hmem
    rcases hmem with h | h | h | h | h | h
    · exact absurd h (by decide)
    · exact absurd h (by decide)
    · exact absurd h (by decide)
    · exact absurd h (by decide)
    · exact (hexDigitChar_ne_nl (by omega)) h.symm
    · exact (hexDigitChar_ne_nl (Nat.mod_lt _ (by omega))) h.symm
  · intro hmem
    simp only [List.mem_cons, List.not_mem_nil, or_false] at hmem
    exact h5 hmem.symm

theorem quoteStr_no_nl (s : String) : '\n' ∉ (quoteStr s).data := by
  intro hmem
  have hm : '\n' ∈ '"' :: ((s.data.map escChar).flatten ++ ['"']) := hmem
  rcases List.mem_cons.mp hm with h | h
  · exact absurd h (by decide)
  · rcases List.mem_append.mp h with h2 | h2
    · rcases List.mem_flatten.mp h2 with ⟨l, hl, hc⟩
      rcases List.mem_map.mp hl with ⟨c, _, rfl⟩
      exact escChar_no_nl c hc
    · exact absurd h2 (by decide)

theorem numRender_front_no_nl (neg : Bool) (ip fp : List Nat)
    (h : '\n' ∈ ((if neg then ['-'] else []) ++ ip.map digitChar ++
      (if fp.isEmpty then [] else '.' :: fp.map digitChar))) : False := by
  rcases List.mem_append.mp h with h2 | h2
  · rcases List.mem_append.mp h2 with h3 | h3
    · cases neg <;> revert h3 <;> decide
    · exact digits_no_nl ip h3
  · by_cases hfp : fp.isEmpty
    · rw [if_pos hfp] at h2
      exact List.not_mem_nil _ h2
    · rw [if_neg hfp] at h2
      rcases List.mem_cons.mp h2 with h3 | h3
      · exact absurd h3 (by decide)
      · exact digits_no_nl fp h3

theorem numRender_no_nl (neg : Bool) (ip fp : List Nat) (es : Option (Bool × List Nat)) :
    '\n' ∉ (numRender neg ip fp es).data := by
  rcases es with _ | ⟨eneg, eds⟩ <;> intro hmem
  · have hm : '\n' ∈ ((if neg then ['-'] else []) ++ ip.map digitChar ++
        (if fp.isEmpty then [] else '.' :: fp.map digitChar) ++ ([] : List Char)) := hmem
    rcases List.mem_append.mp hm with h | h
    · exact numRender_front_no_nl neg ip fp h
    · exact List.not_mem_nil _ h
  · have hm : '\n' ∈ ((if neg then ['-'] else []) ++ ip.map digitChar ++
        (if fp.isEmpty then [] else '.' :: fp.map digitChar) ++
        ('e' :: ((if eneg then ['-'] else []) ++ eds.map digitChar))) := hmem
    rcases List.mem_append.mp hm with h | h
    · exact numRender_front_no_nl neg ip fp h
    · rcases List.mem_cons.mp h with h2 | h2
      · exact absurd h2 (by decide)
      · rcases List.mem_append.mp h2 with h3 | h3
        · cases eneg <;> revert h3 <;> decide
        · exact digits_no_nl eds h3

mutual
theorem jsonStringify_no_nl : ∀ j : Json, '\n' ∉ (jsonStringify j).data
  | Json.null => by decide
  | Json.bool true => by decide
  | Json.bool false => by decide
  | Json.num neg ip fp es => numRender_no_nl neg ip fp es
  | Json.str s => quoteStr_no_nl s
  | Json.arr xs => by
      intro hmem
      have hm : '\n' ∈ ("[" ++ stringifyArr xs ++ "]").data := hmem
      rw [String.data_append, String.data_append] at hm
      rcases List.mem_append.mp hm with h | h
      · rcases List.mem_append.mp h with h2 | h2
        · exact absurd h2 (by decide)
        · exact stringifyArr_no_nl xs h2
      · exact absurd h (by decide)
  | Json.obj ms => by
      intro hmem
      have hm : '\n' ∈ (String.mk [lbraceChar] ++ stringifyObj ms ++ String.mk [rbraceChar]).data :=
        hmem
      rw [String.data_append, String.data_append] at hm
      rcases List.mem_append.mp hm with h | h
      · rcases List.mem_append.mp h with h2 | h2
        · exact absurd h2 (by decide)
        · exact stringifyObj_no_nl ms h2
      · exact absurd h (by decide)
theorem stringifyArr_no_nl : ∀ xs : JArr, '\n' ∉ (stringifyArr xs).data
  | .nil => by decide
  | .cons j .nil => jsonStringify_no_nl j
  | .cons j (JArr.cons j2 rest) => by
      intro hmem
      have hm : '\n' ∈ (jsonStringify j ++ "," ++ stringifyArr (JArr.cons j2 rest)).data := hmem
      rw [String.data_append, String.data_append] at hm
      rcases List.mem_append.mp hm with h | h
      · rcases List.mem_append.mp h with h2 | h2
        · exact jsonStringify_no_nl j h2
        · exact absurd h2 (by decide)
      · exact stringifyArr_no_nl (JArr.cons j2 rest) h
theorem stringifyObj_no_nl : ∀ ms : JObj, '\n' ∉ (stringifyObj ms).data
  | .nil => by decide
  | .cons k v .nil => by
      intro hmem
      have hm : '\n' ∈ (quoteStr k ++ ":" ++ jsonStringify v).data := hmem
      rw [String.data_append, String.data_append] at hm
      rcases List.mem_append.mp hm with h | h
      · rcases List.mem_append.mp h with h2 | h2
        · exact quoteStr_no_nl k h2
        · exact absurd h2 (by decide)
      · exact jsonStringify_no_nl v h
  | .cons k v (JObj.cons k2 v2 rest) => by
      intro hmem
      have hm : '\n' ∈ (quoteStr k ++ ":" ++ jsonStringify v ++ "," ++
          stringifyObj (JObj.cons k2 v2 rest)).data := hmem
      rw [String.data_append, String.data_append, String.data_append,
        String.data_append] at hm
      rcases List.mem_append.mp hm with h | h
      · rcases List.mem_append.mp h with h2 | h2
        · rcases List.mem_append.mp h2 with h3 | h3
          · rcases List.mem_append.mp h3 with h4 | h4
            · exact quoteStr_no_nl k h4
            · exact absurd h4 (by decide)
          · exact jsonStringify_no_nl v h3
        · exact absurd h2 (by decide)
      · exact stringifyObj_no_nl (JObj.cons k2 v2 rest) h
end

theorem lineContent_no_nl (line : String) (h : '\n' ∉ line.data) :
    '\n' ∉ (lineContent line).data := by
  unfold lineContent
  cases hp : jsonParse line with
  | some j => exact jsonStringify_no_nl (processObject j)
  | none => exact h

theorem lineOut_count_nl (line : String) (h : '\n' ∉ line.data) :
    (lineOut line).data.count '\n' = 1 := by
  rw [lineOut_eq, String.data_append, List.count_append,
    List.count_eq_zero.mpr (lineContent_no_nl line h)]
  rfl

theorem lineOut_last (line : String) : (lineOut line).data.getLast? = some '\n' := by
  rw [lineOut_eq, String.data_append]
  exact List.getLast?_concat _

/-! ## Split lines contain no newline, and splitting inverts joining -/

theorem splitNL_no_nl : ∀ cs : List Char, ∀ l ∈ splitNL cs, '\n' ∉ l
  | [] => by
      intro l hl
      simp only [splitNL, List.mem_singleton] at hl
      subst hl
      simp
  | c :: rest => by
      intro l hl
      by_cases hc : c = '\n'
      · subst hc
        simp only [splitNL, reduceIte] at hl
        rcases List.mem_cons.mp hl with rfl | h2
        · simp
        · exact splitNL_no_nl rest l h2
      · simp only [splitNL, if_neg hc] at hl
        cases hr : splitNL rest with
        | nil =>
            rw [hr] at hl
            simp only [List.mem_singleton] at hl
            subst hl
            intro hmem
            rcases List.mem_cons.mp hmem with heq | h3
            · exact hc heq.symm
            · exact List.not_mem_nil _ h3
        | cons l2 ls =>
            rw [hr] at hl
            rcases List.mem_cons.mp hl with rfl | h2
            · intro hmem
              rcases List.mem_cons.mp hmem with heq | h3
              · exact hc heq.symm
              · exact splitNL_no_nl rest l2 (by rw [hr]; exact List.mem_cons_self l2 ls) h3
            · exact splitNL_no_nl rest l (by rw [hr]; exact List.mem_cons_of_mem l2 h2)

theorem splitNL_append : ∀ p : List Char, '\n' ∉ p → ∀ rest : List Char,
    splitNL (p ++ '\n' :: rest) = p :: splitNL rest
  | [], _, rest => by simp [splitNL]
  | c :: p, hp, rest => by
      have hc : c ≠ '\n' := fun h => hp (by simp [h])
      have hmem : '\n' ∉ p := fun h => hp (List.mem_cons_of_mem _ h)
      simp only [List.cons_append, splitNL, if_neg hc, List.append_eq, splitNL_append p hmem rest]

theorem dropTrailingCR_subset {l : List Char} {c : Char} (h : c ∈ dropTrailingCR l) : c ∈ l := by
  unfold dropTrailingCR at h
  by_cases h2 : l.getLast? = some '\r'
  · rw [if_pos h2] at h
    exact (List.dropLast_sublist _).subset h
  · rwa [if_neg h2] at h

theorem splitLines_no_nl (s : String) : ∀ l ∈ splitLines s, '\n' ∉ l.data := by
  intro l hl
  unfold splitLines at hl
  rcases List.mem_map.mp hl with ⟨lc, hlc, rfl⟩
  have hmem : lc ∈ splitNL s.data := by
    by_cases h : (splitNL s.data).getLast? = some []
    · rw [if_pos h] at hlc
      exact (List.dropLast_sublist _).subset hlc
    · rwa [if_neg h] at hlc
  intro hc
  exact splitNL_no_nl s.data lc hmem (dropTrailingCR_subset hc)

theorem concatAll_count (c : Char) (l : List String) :
    (concatAll l).data.count c = (l.map (fun s => s.data.count c)).sum := by
  show ((l.map String.data).flatten).count c = _
  rw [List.count_flatten, List.map_map]
  rfl

/-! ## The claims -/

/-- C1: the Structural Rewriter replaces an object node's data field with the
hash of its value if and only if the node has a field type equal to the string
"base64", a field data whose value is a string, and that string longer than 100
characters. The conjuncts: the guard of processObject is equivalent to the
Binary Payload Marker predicate transcribed from the specification; at any
object node with a string data field the walk installs the digest exactly when
the guard holds and leaves the string otherwise; a non-string data value is
never hashed; a 100-character data string is left untouched while a
101-character one is hashed; a node with a different type tag is untouched;
and the guard is evaluated at nested nodes, including inside arrays. -/
theorem claim_C1_marker_gating :
    (∀ m : JObj, isMarker m = true ↔ specMarker m) ∧
    (∀ (m : JObj) (d : String), jLookup "data" m = some (Json.str d) →
      objLookup "data" (processObject (Json.obj m)) =
        some (Json.str (if isMarker m then hashData d else d))) ∧
    (∀ (m : JObj) (v : Json), jLookup "data" m = some v → isMarker m = false →
      objLookup "data" (processObject (Json.obj m)) = some (processObject v)) ∧
    (processObject (Json.obj (b64Node "base64" (xStr 100))) =
      Json.obj (b64Node "base64" (xStr 100))) ∧
    (processObject (Json.obj (b64Node "base64" (xStr 101))) =
      Json.obj (b64Node "base64" (hashData (xStr 101)))) ∧
    (processObject (Json.obj (b64Node "other" (xStr 101))) =
      Json.obj (b64Node "other" (xStr 101))) ∧
    (processObject (Json.obj (.cons "type" (Json.str "base64")
        (.cons "data" (Json.num false [1] [] none) .nil))) =
      Json.obj (.cons "type" (Json.str "base64")
        (.cons "data" (Json.num false [1] [] none) .nil))) ∧
    (processObject (Json.obj (.cons "wrap"
        (Json.arr (.cons (Json.obj (b64Node "base64" (xStr 101))) .nil)) .nil)) =
      Json.obj (.cons "wrap"
        (Json.arr (.cons (Json.obj (b64Node "base64" (hashData (xStr 101)))) .nil)) .nil)) := by
  refine ⟨isMarker_iff, ?_, ?_, rfl, rfl, rfl, rfl, rfl⟩
  · intro m d hdata
    by_cases hm : isMarker m = true
    · rw [processObject_obj_marker m d hm hdata]
      show jLookup "data" (processMembers (some (hashData d)) m) = _
      rw [jLookup_processMembers_data (hashData d) m (by rw [hdata]; rfl)]
      simp [hm]
    · have hm2 : isMarker m = false := by revert hm; cases isMarker m <;> simp
      rw [processObject_obj_nomarker m hm2]
      show jLookup "data" (processMembers none m) = _
      rw [jLookup_processMembers_none m "data", hdata]
      simp [hm2, processObject]
  · intro m v hdata hm2
    rw [processObject_obj_nomarker m hm2]
    show jLookup "data" (processMembers none m) = _
    rw [jLookup_processMembers_none m "data", hdata]
    rfl

/-- Witness for C1 at the concrete 101-character marker node: its data field is
replaced with the digest. -/
theorem claim_C1_marker_gating_witness :
    objLookup "data" (processObject (Json.obj (b64Node "base64" (xStr 101)))) =
      some (Json.str (if isMarker (b64Node "base64" (xStr 101)) then hashData (xStr 101)
        else xStr 101)) :=
  claim_C1_marker_gating.2.1 (b64Node "base64" (xStr 101)) (xStr 101) rfl

/-- C4: the Structural Rewriter changes only the data field's value at nodes
matching the Binary Payload Marker. The conjuncts: the skeleton of every value
(nulls, booleans, numbers, array shapes, object keys and member order,
everything except the contents of strings) is preserved at every depth; at any
object node the key list is unchanged; at any object node every field other
than data holds the walk of its old value, so the in-place replacement touches
nothing but data; arrays are rewritten elementwise, keeping order and count;
and every scalar is left untouched by the walk. -/
theorem claim_C4_frame :
    (∀ j : Json, skelJ (processObject j) = skelJ j) ∧
    (∀ m : JObj, objKeys (processObject (Json.obj m)) = m.keys) ∧
    (∀ (m : JObj) (k : String), k ≠ "data" →
      objLookup k (processObject (Json.obj m)) = (jLookup k m).map processObject) ∧
    (∀ xs : JArr, processObject (Json.arr xs) = Json.arr (processArr xs)) ∧
    (∀ xs : JArr, (processArr xs).length = xs.length) ∧
    (∀ (xs : JArr) (n : Nat), (processArr xs).get? n = (xs.get? n).map processObject) ∧
    (∀ s, processObject (Json.str s) = Json.str s) ∧
    (∀ b, processObject (Json.bool b) = Json.bool b) ∧
    (∀ neg ip fp es, processObject (Json.num neg ip fp es) = Json.num neg ip fp es) ∧
    processObject Json.null = Json.null := by
  refine ⟨skelJ_processObject, ?_, ?_, fun xs => rfl, processArr_length, processArr_get?,
    fun s => rfl, fun b => rfl, fun neg ip fp es => rfl, rfl⟩
  · intro m
    by_cases hm : isMarker m = true
    · obtain ⟨_, d, hdata, _⟩ := (isMarker_iff m).mp hm
      rw [processObject_obj_marker m d hm hdata]
      exact processMembers_keys (some (hashData d)) m
    · have hm2 : isMarker m = false := by revert hm; cases isMarker m <;> simp
      rw [processObject_obj_nomarker m hm2]
      exact processMembers_keys none m
  · intro m k hk
    by_cases hm : isMarker m = true
    · obtain ⟨_, d, hdata, _⟩ := (isMarker_iff m).mp hm
      rw [processObject_obj_marker m d hm hdata]
      exact jLookup_processMembers (some (hashData d)) m k hk
    · have hm2 : isMarker m = false := by revert hm; cases isMarker m <;> simp
      rw [processObject_obj_nomarker m hm2]
      exact jLookup_processMembers_none m k

/-- Witness for C4 at a concrete marker node: the type field is unchanged by
the walk. -/
theorem claim_C4_frame_witness :
    objLookup "type" (processObject (Json.obj (b64Node "base64" (xStr 101)))) =
      (jLookup "type" (b64Node "base64" (xStr 101))).map processObject :=
  claim_C4_frame.2.2.1 (b64Node "base64" (xStr 101)) "type" (by decide)

/-- C6: the Structural Rewriter is idempotent: a second pass changes nothing,
because the digest that replaces a data payload is a 64-character string, at
most 100 characters, so the replaced node no longer satisfies the marker
predicate, and everything else was already a fixed point of the walk. -/
theorem claim_C6_idempotent :
    (∀ j : Json, processObject (processObject j) = processObject j) ∧
    (∀ s : String, (hashData s).length = 64 ∧ (hashData s).length ≤ 100) :=
  ⟨process_idem, fun s => ⟨hashData_length s, by rw [hashData_length]; omega⟩⟩

/-- C2: for any input text the driver emits exactly one sink write per input
line, in input order; every write is the record content followed by a trailing
newline and contains no other newline, so the output file has exactly as many
lines as the input had, in the same order, and no line is dropped. -/
theorem claim_C2_line_count (text : String) :
    (runDriver (splitLines text)).out = (splitLines text).map lineOut ∧
    (runDriver (splitLines text)).out.length = (splitLines text).length ∧
    (runDriver (splitLines text)).lineCount = (splitLines text).length ∧
    (∀ piece ∈ (runDriver (splitLines text)).out,
      piece.data.count '\n' = 1 ∧ piece.data.getLast? = some '\n') ∧
    (concatAll (runDriver (splitLines text)).out).data.count '\n' =
      (splitLines text).length := by
  have hout := runDriver_out (splitLines text)
  refine ⟨hout, by rw [hout, List.length_map], runDriver_lineCount (splitLines text), ?_, ?_⟩
  · intro piece hp
    rw [hout] at hp
    rcases List.mem_map.mp hp with ⟨l, hl, rfl⟩
    exact ⟨lineOut_count_nl l (splitLines_no_nl text l hl), lineOut_last l⟩
  · rw [hout, concatAll_count, List.map_map]
    have hsum : ∀ ls : List String, (∀ l ∈ ls, '\n' ∉ l.data) →
        (ls.map ((fun s => s.data.count '\n') ∘ lineOut)).sum = ls.length := by
      intro ls
      induction ls with
      | nil => intro _; rfl
      | cons a as ih =>
          intro h
          simp only [List.map_cons, List.sum_cons, List.length_cons,
            Function.comp_apply, lineOut_count_nl a (h a (by simp)),
            ih (fun l hl => h l (by simp [hl]))]
          omega
    exact hsum (splitLines text) (splitLines_no_nl text)

/-- Witness for C2 on a two-line input, one record and one malformed line. -/
theorem claim_C2_line_count_witness :
    (runDriver (splitLines "\x7b\x7d\nx\n")).out.length =
      (splitLines "\x7b\x7d\nx\n").length ∧
    ("\x7b\x7d\n" : String).data.count '\n' = 1 ∧
    ("\x7b\x7d\n" : String).data.getLast? = some '\n' :=
  ⟨(claim_C2_line_count "\x7b\x7d\nx\n").2.1,
   (claim_C2_line_count "\x7b\x7d\nx\n").2.2.2.1 "\x7b\x7d\n" (by decide)⟩

/-- C3: a line that fails to parse is passed through byte-identically with a
trailing newline, bumps the error counter by exactly one, and the run
continues: the lines before and after it are processed exactly as they would
be on their own, and every line is still counted. -/
theorem claim_C3_passthrough (pre post : List String) (l : String)
    (h : jsonParse l = none) :
    (runDriver (pre ++ l :: post)).out =
      (runDriver pre).out ++ (l ++ "\n") :: post.map lineOut ∧
    (runDriver (pre ++ l :: post)).errorCount =
      (runDriver pre).errorCount + 1 + (runDriver post).errorCount ∧
    (runDriver (pre ++ l :: post)).processedCount =
      (runDriver pre).processedCount + (runDriver post).processedCount ∧
    (runDriver (pre ++ l :: post)).lineCount = pre.length + 1 + post.length := by
  refine ⟨?_, ?_, ?_, ?_⟩
  · rw [runDriver_out, runDriver_out, List.map_append, List.map_cons]
    have hl : lineOut l = l ++ "\n" := by rw [lineOut, h]
    rw [hl]
  · rw [runDriver_errors, runDriver_errors, runDriver_errors,
      List.countP_append, List.countP_cons]
    simp [h]
    omega
  · rw [runDriver_processed, runDriver_processed, runDriver_processed,
      List.countP_append, List.countP_cons]
    simp [h]
  · rw [runDriver_lineCount, List.length_append, List.length_cons]
    omega

/-- Witness for C3 with a malformed middle line between two records. -/
theorem claim_C3_passthrough_witness :
    (runDriver (["\x7b\x7d"] ++ "not valid json" :: ["true"])).errorCount =
      (runDriver ["\x7b\x7d"]).errorCount + 1 + (runDriver ["true"]).errorCount :=
  (claim_C3_passthrough ["\x7b\x7d"] ["true"] "not valid json" rfl).2.1

/-- C5: the digest is always a string of exactly 64 lowercase hexadecimal
characters; it is a pure function of the literal character content of its
input, so hashing the same string twice yields the identical digest; and it is
computed over the raw base64 text itself, not over the decoded binary: QUJD
decodes to the bytes 65 66 67, and the digest of the text QUJD differs from
the digest of those bytes. -/
theorem claim_C5_digest :
    (∀ s : String, (hashData s).length = 64) ∧
    (∀ s : String, ∀ c ∈ (hashData s).data, isLowerHexDigit c = true) ∧
    (∀ s t : String, s.data = t.data → hashData s = hashData t) ∧
    b64Decode "QUJD" = some [65, 66, 67] ∧
    hashData "QUJD" ≠ sha256Hex [65, 66, 67] := by
  refine ⟨hashData_length, hashData_lower, ?_, by decide, by decide⟩
  intro s t h
  show sha256Hex ((s.data.map utf8Encode).flatten) = sha256Hex ((t.data.map utf8Encode).flatten)
  rw [h]

/-- Witness for C5: determinism applied at a concrete string. -/
theorem claim_C5_digest_witness :
    hashData "ab" = hashData "ab" ∧ isLowerHexDigit 'b' = true :=
  ⟨claim_C5_digest.2.2.1 "ab" "ab" rfl,
   claim_C5_digest.2.1 "abc" 'b' (by decide)⟩

theorem countP_parse_total (lines : List String) :
    lines.countP (fun l => (jsonParse l).isSome) +
      lines.countP (fun l => (jsonParse l).isNone) = lines.length := by
  induction lines with
  | nil => rfl
  | cons a as ih =>
      simp only [List.countP_cons, List.length_cons]
      cases h : jsonParse a <;> simp [h] <;> omega

/-- C7, counterexample: on a two-line input (one record, one malformed line)
the resolved summary carries linesProcessed 1, errors 1, inputSize 5 and
outputSize 5 — no field of the summary holds the total number of lines seen,
which is 2; the total is only derivable as linesProcessed + errors. -/
theorem claim_C7_counterexample :
    (splitLines "\x7b\x7d\nx\n").length = 2 ∧
    (processJsonlFile "\x7b\x7d\nx\n" "in.jsonl" "out").1.linesProcessed = 1 ∧
    (processJsonlFile "\x7b\x7d\nx\n" "in.jsonl" "out").1.errors = 1 ∧
    (processJsonlFile "\x7b\x7d\nx\n" "in.jsonl" "out").1.inputSize = 5 ∧
    (processJsonlFile "\x7b\x7d\nx\n" "in.jsonl" "out").1.outputSize = 5 ∧
    (processJsonlFile "\x7b\x7d\nx\n" "in.jsonl" "out").1.linesProcessed ≠ 2 ∧
    (processJsonlFile "\x7b\x7d\nx\n" "in.jsonl" "out").1.errors ≠ 2 ∧
    (processJsonlFile "\x7b\x7d\nx\n" "in.jsonl" "out").1.inputSize ≠ 2 ∧
    (processJsonlFile "\x7b\x7d\nx\n" "in.jsonl" "out").1.outputSize ≠ 2 := by
  decide

/-- C7, amended: the summary returned after a run contains the number of lines
transformed, the number of lines passed through due to error, the input byte
size, the output byte size and the output path; the total number of lines seen
is not a separate field, but always equals transformed plus errors. -/
theorem claim_C7_summary_fields (text inputPath outputDir : String) :
    (processJsonlFile text inputPath outputDir).1.linesProcessed =
      (splitLines text).countP (fun l => (jsonParse l).isSome) ∧
    (processJsonlFile text inputPath outputDir).1.errors =
      (splitLines text).countP (fun l => (jsonParse l).isNone) ∧
    (processJsonlFile text inputPath outputDir).1.linesProcessed +
      (processJsonlFile text inputPath outputDir).1.errors = (splitLines text).length ∧
    (processJsonlFile text inputPath outputDir).1.inputSize = utf8Len text ∧
    (processJsonlFile text inputPath outputDir).1.outputSize =
      utf8Len (processJsonlFile text inputPath outputDir).2 ∧
    (processJsonlFile text inputPath outputDir).1.outputPath =
      pathJoin outputDir (outputFilename (basename inputPath)) := by
  refine ⟨?_, ?_, ?_, rfl, rfl, rfl⟩
  · exact runDriver_processed (splitLines text)
  · exact runDriver_errors (splitLines text)
  · show (runDriver (splitLines text)).processedCount +
      (runDriver (splitLines text)).errorCount = _
    rw [runDriver_processed, runDriver_errors]
    exact countP_parse_total (splitLines text)

/-- C8: the script calls outputStream.end() and immediately fs.statSync inside
the close handler, without waiting for the finish event of the write stream.
In the buffered-sink model, when the event loop has not yet completed the
pending write at that moment, statSync reports 0 bytes although the finished
file holds 3: the byte-size measurement can observe the sink while a write is
still pending, contradicting the claim. -/
theorem claim_C8_stat_race :
    (runDriver (splitLines "\x7b\x7d\n")).out = ["\x7b\x7d\n"] ∧
    sinkDiskBytes (sinkFlushN 0 (writeAll (runDriver (splitLines "\x7b\x7d\n")).out)) = 0 ∧
    ((runDriver (splitLines "\x7b\x7d\n")).out.map utf8Len).sum = 3 ∧
    sinkDiskBytes (sinkFlushN 1 (writeAll (runDriver (splitLines "\x7b\x7d\n")).out)) = 3 := by
  decide

theorem replaceFirstAux_at_suffix : ∀ stem : List Char,
    (∀ i, i < stem.length →
      (".jsonl".data.isPrefixOf ((stem ++ ".jsonl".data).drop i)) = false) →
    replaceFirstAux ".jsonl".data ".hashed.jsonl".data (stem ++ ".jsonl".data) =
      stem ++ ".hashed.jsonl".data
  | [], _ => by decide
  | c :: stem, H => by
      have h0 : (".jsonl".data.isPrefixOf (c :: (stem ++ ".jsonl".data))) = false := by
        simpa using H 0 (by simp)
      have H2 : ∀ i, i < stem.length →
          (".jsonl".data.isPrefixOf ((stem ++ ".jsonl".data).drop i)) = false := by
        intro i hi
        simpa [List.drop_succ_cons] using H (i + 1) (by simpa using Nat.succ_lt_succ hi)
      show replaceFirstAux ".jsonl".data ".hashed.jsonl".data
          (c :: (stem ++ ".jsonl".data)) = c :: (stem ++ ".hashed.jsonl".data)
      simp only [replaceFirstAux, h0, Bool.false_eq_true, if_false,
        replaceFirstAux_at_suffix stem H2]

/-- C9, counterexample: the script replaces the first occurrence of .jsonl in
the base name, not the trailing suffix. On the base name a.jsonl.jsonl the code
produces a.hashed.jsonl.jsonl, while replacing the trailing .jsonl suffix would
produce a.jsonl.hashed.jsonl. -/
theorem claim_C9_counterexample :
    outputFilename "a.jsonl.jsonl" = "a.hashed.jsonl.jsonl" ∧
    "a.hashed.jsonl.jsonl" ≠ "a.jsonl" ++ ".hashed.jsonl" := by
  decide

/-- C9, amended: the output file name is the input's base name with the first
occurrence of .jsonl replaced by .hashed.jsonl, placed in the resolved output
directory; this coincides with replacing the trailing suffix exactly when
.jsonl occurs in the base name only as its trailing suffix. -/
theorem claim_C9_first_occurrence :
    (∀ stem : String,
      (∀ i, i < stem.data.length →
        (".jsonl".data.isPrefixOf ((stem.data ++ ".jsonl".data).drop i)) = false) →
      outputFilename (stem ++ ".jsonl") = stem ++ ".hashed.jsonl") ∧
    (processJsonlFile "" "/tmp/sess.jsonl" "/out").1.outputPath = "/out/sess.hashed.jsonl" := by
  refine ⟨?_, by decide⟩
  intro stem H
  show String.mk (replaceFirstAux ".jsonl".data ".hashed.jsonl".data
      ((stem ++ ".jsonl").data)) = _
  rw [String.data_append, replaceFirstAux_at_suffix stem.data H]
  rfl

/-- Witness for C9 on the base name session.jsonl, whose only occurrence of
.jsonl is the trailing suffix. -/
theorem claim_C9_first_occurrence_witness :
    outputFilename ("session" ++ ".jsonl") = "session" ++ ".hashed.jsonl" :=
  claim_C9_first_occurrence.1 "session" (by decide)

/-- C10: a successfully parsed line is re-serialized compactly rather than
copied: the line with extra whitespace between tokens parses, contains no
Binary Payload Marker (the rewriter leaves its record unchanged), is counted
as transformed with no error, and yet its output line differs byte for byte
from the input line; only a line that fails to parse is guaranteed to pass
through byte-identically. -/
theorem claim_C10_reserialization :
    jsonParse "\x7b \"a\" : true \x7d" = some (Json.obj (.cons "a" (Json.bool true) .nil)) ∧
    processObject (Json.obj (.cons "a" (Json.bool true) .nil)) =
      Json.obj (.cons "a" (Json.bool true) .nil) ∧
    lineOut "\x7b \"a\" : true \x7d" = "\x7b\"a\":true\x7d\n" ∧
    lineOut "\x7b \"a\" : true \x7d" ≠ "\x7b \"a\" : true \x7d" ++ "\n" ∧
    (runDriver ["\x7b \"a\" : true \x7d"]).processedCount = 1 ∧
    (runDriver ["\x7b \"a\" : true \x7d"]).errorCount = 0 ∧
    (∀ l : String, jsonParse l = none → lineOut l = l ++ "\n") := by
  refine ⟨rfl, rfl, rfl, by decide, rfl, rfl, ?_⟩
  intro l h
  rw [lineOut, h]

/-- Witness for C10: the guaranteed byte-identical passthrough applied to a
malformed line. -/
theorem claim_C10_reserialization_witness :
    lineOut "not valid json" = "not valid json" ++ "\n" :=
  claim_C10_reserialization.2.2.2.2.2.2 "not valid json" rfl
